import Mathlib

/-!
Verification of the bet-tracker ledger engine (`src/app.py`).

The Python source is shallowly embedded in Lean:
* Python floats are modelled as exact rationals (`ℚ`); the formulas under
  scrutiny are algebraic identities, stated and checked in exact arithmetic.
* Calendar dates are modelled as integers (a day index); only ordering and
  equality of dates matter to the program.
* A Python exception escaping a computation is modelled as `Option.none`
  (for the odds formulas, a `ZeroDivisionError`) or as an explicit error
  value (for the CSV import path, whose body runs inside `try/except`).
* `pandas.groupby('Date')` sorts the distinct keys ascending; it is modelled
  by deduplicating the date column and insertion-sorting it.
-/

namespace BetTracker

/-- Result field of a bet record (`"WIN"` / `"LOSS"`; `pending` for rows the
importer never produces). -/
inductive BetResult where
  | win
  | loss
  | pending
deriving DecidableEq, Repr

/-- Status field of a bet record (`"OPEN"` / `"CLOSED"`). -/
inductive BetStatus where
  | opened
  | closed
deriving DecidableEq, Repr

/-- A bet record, the `BetEntry` dict of `src/app.py` restricted to the fields
that take part in any computation (the string metadata fields `Player`,
`Team`, `Position`, `Line`, `BetType` are pass-through and omitted). -/
structure Bet where
  date : ℤ
  amount : ℚ
  odds : ℚ
  result : BetResult
  payout : ℚ
  profit : ℚ
  status : BetStatus
deriving DecidableEq, Repr

/-- Model of `calculate_payout` (src/app.py lines 12-17): total payout (stake plus
profit) for American odds.  The Python code branches on `odds > 0` and
otherwise divides by `abs(odds)`; `none` models the `ZeroDivisionError`
raised when `odds = 0` reaches that division. -/
def calculate_payout (odds amount : ℚ) : Option ℚ :=
  if 0 < odds then
    some (amount + odds / 100 * amount)
  else if |odds| = 0 then
    none
  else
    some (amount + 100 / |odds| * amount)

/-- Model of `calculate_potential` (src/app.py lines 118-123): potential winnings for
American odds.  `none` models the `ZeroDivisionError` raised when `odds = 0`
reaches the division `amount / (abs(odds) / 100)`. -/
def calculate_potential (amount odds : ℚ) : Option ℚ :=
  if 0 < odds then
    some (amount * (odds / 100))
  else if |odds| / 100 = 0 then
    none
  else
    some (amount / (|odds| / 100))

/-- The value `calculate_potential` produces on non-zero odds (a total
companion of `calculate_potential`, used to state sums over many bets). -/
def potentialVal (amount odds : ℚ) : ℚ :=
  if 0 < odds then amount * (odds / 100) else amount / (|odds| / 100)

/-- Running-sum helper: `cumsumAux acc l` is the list of partial sums of `l`
starting from accumulator `acc`.  Models `pandas.Series.cumsum`. -/
def cumsumAux (acc : ℚ) : List ℚ → List ℚ
  | [] => []
  | x :: xs => (acc + x) :: cumsumAux (acc + x) xs

/-- Model of `Series.cumsum`: the list of prefix sums. -/
def cumsum (l : List ℚ) : List ℚ := cumsumAux 0 l

/-- The month-to-date filter of `get_daily_metrics` (src/app.py lines 96-99):
when enabled, keep only bets dated on or after the first day of the current
month (`monthStart` models `pd.Timestamp.now().replace(day=1)`). -/
def mtdFilter (monthToDate : Bool) (monthStart : ℤ) (bets : List Bet) : List Bet :=
  if monthToDate then bets.filter (fun b => monthStart ≤ b.date) else bets

/-- The sorted distinct dates of a bet list: the group keys produced by
`df.groupby('Date')`, which sorts keys ascending. -/
def bucketDates (bets : List Bet) : List ℤ :=
  ((bets.map Bet.date).dedup).insertionSort (· ≤ ·)

/-- The per-bet profit recomputed by `get_daily_metrics` (src/app.py lines
101-105): `Payout - Amount` for a WIN and `-Amount` otherwise.  Note that the
stored `Profit` field is overwritten, never read. -/
def computedProfit (b : Bet) : ℚ :=
  if b.result = BetResult.win then b.payout - b.amount else -b.amount

/-- The `Profit` aggregate of one date group: sum of recomputed profits of the
bets on that date. -/
def dayProfit (bets : List Bet) (d : ℤ) : ℚ :=
  ((bets.filter (fun b => b.date = d)).map computedProfit).sum

/-- The `Amount` aggregate of one date group. -/
def dayAmount (bets : List Bet) (d : ℤ) : ℚ :=
  ((bets.filter (fun b => b.date = d)).map Bet.amount).sum

/-- The data frame returned by `get_daily_metrics`, as parallel columns:
one entry per date group, plus the running `Cumulative` column. -/
structure DailyFrame where
  dates : List ℤ
  profits : List ℚ
  amounts : List ℚ
  cumulative : List ℚ
deriving DecidableEq, Repr

/-- Model of `get_daily_metrics` (src/app.py lines 80-116): empty input yields an empty
frame; otherwise filter to month-to-date if requested, group by date (keys
sorted ascending), aggregate `Profit` (recomputed per bet) and `Amount` by
sum, and append the cumulative sum of the profit column. -/
def get_daily_metrics (bets : List Bet) (monthToDate : Bool) (monthStart : ℤ) :
    DailyFrame :=
  if bets = [] then ⟨[], [], [], []⟩
  else
    ⟨bucketDates (mtdFilter monthToDate monthStart bets),
     (bucketDates (mtdFilter monthToDate monthStart bets)).map
       (dayProfit (mtdFilter monthToDate monthStart bets)),
     (bucketDates (mtdFilter monthToDate monthStart bets)).map
       (dayAmount (mtdFilter monthToDate monthStart bets)),
     cumsum ((bucketDates (mtdFilter monthToDate monthStart bets)).map
       (dayProfit (mtdFilter monthToDate monthStart bets)))⟩

/-- The `Cumulative` column of `closed_df` in `plot_daily_performance`
(src/app.py line 131): running sum of the stored `Profit` fields in list
order. -/
def closedCumulative (closed_bets : List Bet) : List ℚ :=
  cumsum (closed_bets.map Bet.profit)

/-- One row of the `open_daily` frame of `plot_daily_performance`. -/
structure OpenDailyRow where
  date : ℤ
  potentialWin : ℚ
  potentialLoss : ℚ
  cumulative : ℚ
deriving DecidableEq, Repr

/-- The `Potential_Win` column of `open_df` (src/app.py lines 138-140):
`calculate_potential` applied to every open bet; `none` if any application
raises. -/
def openPotentials : List Bet → Option (List ℚ)
  | [] => some []
  | b :: bs =>
    match calculate_potential b.amount b.odds with
    | none => none
    | some p => (openPotentials bs).map (fun ps => p :: ps)

/-- The `open_daily` frame (src/app.py lines 143-148): group open bets by
date (keys sorted ascending), sum `Potential_Win` and `Potential_Loss`
(`-Amount`) per group, and set `Cumulative` to their per-group sum. -/
def openDaily (open_bets : List Bet) : Option (List OpenDailyRow) :=
  (openPotentials open_bets).map (fun pots =>
    (bucketDates open_bets).map (fun d =>
      ⟨d,
       (((open_bets.zip pots).filter (fun z => z.1.date = d)).map
         (fun z => z.2)).sum,
       ((open_bets.filter (fun b => b.date = d)).map (fun b => -b.amount)).sum,
       (((open_bets.zip pots).filter (fun z => z.1.date = d)).map
         (fun z => z.2)).sum +
       ((open_bets.filter (fun b => b.date = d)).map
         (fun b => -b.amount)).sum⟩))

/-- The projected data series of `plot_daily_performance` (src/app.py lines
208-218): when closed bets exist, `last_actual` (the last entry of the
realized cumulative column) is added to every projected row's `Cumulative`;
when there are no closed bets the projected rows are used unchanged. -/
def projectedSeries (closed_bets open_bets : List Bet) : Option (List OpenDailyRow) :=
  match openDaily open_bets, (closedCumulative closed_bets).getLast? with
  | none, _ => none
  | some rows, none => some rows
  | some rows, some la =>
      some (rows.map (fun r => { r with cumulative := r.cumulative + la }))

/-- A parsed CSV row as the import loop sees it.  `date` is the result of
date parsing (`none`: the value failed to parse and stayed a raw string, so
`row['date'].date()` raises); `outcome` is `none` when the cell is NaN. -/
structure CsvRow where
  date : Option ℤ
  amount_usd : ℚ
  price : ℚ
  outcome : Option String
  outcome_amount : ℚ
deriving DecidableEq, Repr

/-- Rounding to two decimals (`round(x, 2)`), modelled as round-to-nearest on
exact rationals. -/
def round2 (q : ℚ) : ℚ := (round (q * 100) : ℤ) / 100

/-- Python `str.strip()`: drop leading and trailing whitespace (stated on the
character list underlying the string). -/
def strStrip (s : String) : String :=
  ⟨((s.data.dropWhile Char.isWhitespace).reverse.dropWhile Char.isWhitespace).reverse⟩

/-- Python `str.lower()` on the ASCII tokens the importer compares. -/
def strLower (s : String) : String := ⟨s.data.map Char.toLower⟩

/-- The WIN test of the import loop (src/app.py line 52):
`str(row['outcome']).strip().lower() == 'win'`. -/
def isWinToken (s : String) : Bool := strLower (strStrip s) = "win"

/-- The row loop of `process_csv_upload` (src/app.py lines 45-75): rows with a
NaN outcome are skipped; otherwise the result token is normalized
case-insensitively (`win` wins, anything else loses), profit and payout are
derived from `outcome_amount` and `amount_usd`, and a CLOSED bet is built.
`none` models an exception escaping the loop (a row whose date never parsed
raises when `.date()` is called), which aborts the whole batch. -/
def processRows : List CsvRow → Option (List Bet)
  | [] => some []
  | r :: rs =>
    match r.outcome with
    | none => processRows rs
    | some oc =>
      match r.date with
      | none => none
      | some d =>
        (processRows rs).map (fun bs =>
          { date := d
            amount := r.amount_usd
            odds := r.price
            result := if isWinToken oc then BetResult.win else BetResult.loss
            payout := round2 (if isWinToken oc then r.outcome_amount else 0)
            profit := round2 (if isWinToken oc then
                r.outcome_amount - r.amount_usd else -r.amount_usd)
            status := BetStatus.closed } :: bs)

/-- The error reported by `process_csv_upload`: the explicit
missing-columns message (line 42) or the generic `except` handler (line 77). -/
inductive ImportError where
  | missingColumns
  | processing
deriving DecidableEq, Repr

/-- The outcome of `process_csv_upload`: the produced bets together with the
error surfaced via `st.error`, if any.  In every failure case the function
returns an empty bet list. -/
structure ImportResult where
  bets : List Bet
  error : Option ImportError
deriving DecidableEq, Repr

/-- The required columns of the settlement-export schema
(src/app.py line 40). -/
def required_columns : List String :=
  ["date", "amount_usd", "price", "outcome", "outcome_amount"]

/-- Model of `process_csv_upload` (src/app.py lines 26-78): if any required column is
absent the batch is rejected with the missing-columns error and no bets;
otherwise the row loop runs, and any exception it raises is caught by the
surrounding `try/except`, again yielding no bets. -/
def process_csv_upload (cols : List String) (rows : List CsvRow) : ImportResult :=
  if ∀ c ∈ required_columns, c ∈ cols then
    match processRows rows with
    | some bs => ⟨bs, none⟩
    | none => ⟨[], some ImportError.processing⟩
  else ⟨[], some ImportError.missingColumns⟩

/-- The closed subset of the ledger (`main`, src/app.py line 258). -/
def closedBets (history : List Bet) : List Bet :=
  history.filter (fun b => b.status = BetStatus.closed)

/-- The month-to-date closed subset built by the loop at src/app.py lines
266-280: closed bets dated on or after the first day of the current month. -/
def mtdClosed (history : List Bet) (monthStart : ℤ) : List Bet :=
  (closedBets history).filter (fun b => monthStart ≤ b.date)

/-- Model of `total_returns` (src/app.py line 283): the sum of the stored `Profit`
fields over the month-to-date closed bets. -/
def total_returns (history : List Bet) (monthStart : ℤ) : ℚ :=
  ((mtdClosed history monthStart).map Bet.profit).sum

/-- Two bet records that agree on every field except (possibly) the stored
`Profit` field. -/
def EqExceptProfit (a b : Bet) : Prop :=
  a.date = b.date ∧ a.amount = b.amount ∧ a.odds = b.odds ∧
  a.result = b.result ∧ a.payout = b.payout ∧ a.status = b.status

/-! ## Odds math (claims C1, C2, C9) -/

/-- C1: for every stake `amount ≥ 0` and every valid American odds value,
`calculate_payout odds amount` returns the stake plus profit: for
`odds ≥ 100` it returns `amount + amount * odds / 100`, and for
`odds ≤ -100` it returns `amount + amount * 100 / |odds|`. -/
theorem payout_is_stake_plus_profit (odds amount : ℚ) (_hamt : 0 ≤ amount) :
    (100 ≤ odds → calculate_payout odds amount = some (amount + amount * odds / 100)) ∧
    (odds ≤ -100 → calculate_payout odds amount = some (amount + amount * 100 / |odds|)) := by
  constructor
  · intro h
    have hpos : 0 < odds := lt_of_lt_of_le (by norm_num) h
    rw [calculate_payout, if_pos hpos]
    congr 1
    ring
  · intro h
    have hneg : ¬ 0 < odds := by linarith
    have habs : ¬ |odds| = 0 := by
      intro hc
      rw [abs_eq_zero] at hc
      linarith
    rw [calculate_payout, if_neg hneg, if_neg habs]
    congr 1
    ring

/-- Witness for C1 at `odds = 150`, `amount = 50`:
`calculate_payout 150 50 = some 125`. -/
theorem payout_is_stake_plus_profit_witness :
    (0 : ℚ) ≤ 50 ∧ calculate_payout 150 50 = some (50 + 50 * 150 / 100) :=
  ⟨by decide, (payout_is_stake_plus_profit 150 50 (by decide)).1 (by decide)⟩

/-- C2 (counterexample): at `odds = 50` (strictly between `-100` and `100`)
and `amount = 100`, `calculate_payout` does not fail: it returns the value
`150` computed by the positive-odds formula. -/
theorem payout_mid_range_returns_value :
    (-100 : ℚ) < 50 ∧ (50 : ℚ) < 100 ∧ calculate_payout 50 100 = some 150 := by
  refine ⟨by decide, by decide, ?_⟩
  rw [calculate_payout, if_pos (by decide : (0:ℚ) < 50)]
  norm_num

/-- C2 (amended): `calculate_payout` performs no domain validation.  For odds
strictly between `-100` and `100` it still applies the usual formulas —
positive odds return `amount + odds / 100 * amount`, negative odds return
`amount + 100 / |odds| * amount` — and only `odds = 0` fails, with a
`ZeroDivisionError` rather than an `InvalidOddsError`. -/
theorem payout_has_no_domain_validation (odds amount : ℚ)
    (h1 : -100 < odds) (h2 : odds < 100) :
    (0 < odds → calculate_payout odds amount = some (amount + odds / 100 * amount)) ∧
    (odds = 0 → calculate_payout odds amount = none) ∧
    (odds < 0 → calculate_payout odds amount = some (amount + 100 / |odds| * amount)) := by
  refine ⟨fun h => ?_, fun h => ?_, fun h => ?_⟩
  · rw [calculate_payout, if_pos h]
  · subst h
    rw [calculate_payout, if_neg (lt_irrefl 0), if_pos abs_zero]
  · have habs : ¬ |odds| = 0 := fun hc => h.ne (abs_eq_zero.mp hc)
    rw [calculate_payout, if_neg (not_lt.mpr h.le), if_neg habs]

/-- Witness for the amended C2 at `odds = 50`, `odds = 0` and `odds = -50`
with `amount = 100`. -/
theorem payout_has_no_domain_validation_witness :
    ((-100 : ℚ) < 50 ∧ (50 : ℚ) < 100 ∧
      calculate_payout 50 100 = some (100 + 50 / 100 * 100)) ∧
    ((-100 : ℚ) < 0 ∧ (0 : ℚ) < 100 ∧ calculate_payout 0 100 = none) ∧
    ((-100 : ℚ) < -50 ∧ (-50 : ℚ) < 100 ∧
      calculate_payout (-50) 100 = some (100 + 100 / |(-50 : ℚ)| * 100)) :=
  ⟨⟨by decide, by decide,
      (payout_has_no_domain_validation 50 100 (by decide) (by decide)).1 (by decide)⟩,
   ⟨by decide, by decide,
      (payout_has_no_domain_validation 0 100 (by decide) (by decide)).2.1 rfl⟩,
   ⟨by decide, by decide,
      (payout_has_no_domain_validation (-50) 100 (by decide) (by decide)).2.2 (by decide)⟩⟩

/-- C9: for any `amount` and any odds with `|odds| ≥ 100`, the payout and
potential-win functions agree: `calculate_potential` succeeds with some
profit `p` and `calculate_payout` returns exactly `amount + p`. -/
theorem payout_agrees_with_potential (odds amount : ℚ) (h : 100 ≤ |odds|) :
    ∃ p, calculate_potential amount odds = some p ∧
      calculate_payout odds amount = some (amount + p) := by
  rcases lt_trichotomy odds 0 with hneg | hz | hpos
  · have habs : ¬ |odds| = 0 := by
      intro hc
      rw [hc] at h
      norm_num at h
    have habs' : ¬ |odds| / 100 = 0 := by
      intro hc
      exact habs (by
        have := div_eq_zero_iff.mp hc
        rcases this with h' | h'
        · exact h'
        · norm_num at h')
    refine ⟨amount / (|odds| / 100), ?_, ?_⟩
    · rw [calculate_potential, if_neg (not_lt.mpr hneg.le), if_neg habs']
    · rw [calculate_payout, if_neg (not_lt.mpr hneg.le), if_neg habs]
      congr 1
      rw [div_div_eq_mul_div]
      ring
  · subst hz
    rw [abs_zero] at h
    norm_num at h
  · exact ⟨amount * (odds / 100), by rw [calculate_potential, if_pos hpos],
      by rw [calculate_payout, if_pos hpos]; congr 1; ring⟩

/-- Witness for C9 at `odds = -110`, `amount = 50`. -/
theorem payout_agrees_with_potential_witness :
    (100 : ℚ) ≤ |(-110 : ℚ)| ∧
    ∃ p, calculate_potential 50 (-110) = some p ∧
      calculate_payout (-110) 50 = some (50 + p) :=
  ⟨by decide, payout_agrees_with_potential (-110) 50 (by decide)⟩

/-! ## Cumulative-sum helper lemmas -/

theorem cumsumAux_length : ∀ (l : List ℚ) (acc : ℚ),
    (cumsumAux acc l).length = l.length
  | [], _ => rfl
  | x :: xs, acc => by
    rw [cumsumAux, List.length_cons, List.length_cons, cumsumAux_length xs (acc + x)]

theorem cumsumAux_get : ∀ (l : List ℚ) (acc : ℚ) (i : ℕ)
    (h : i < (cumsumAux acc l).length),
    (cumsumAux acc l).get ⟨i, h⟩ = acc + (l.take (i + 1)).sum
  | [], acc, i, h => by simp [cumsumAux] at h
  | x :: xs, acc, 0, h => by simp [cumsumAux]
  | x :: xs, acc, i + 1, h => by
    have h' : i < (cumsumAux (acc + x) xs).length := by
      simpa [cumsumAux] using h
    calc (cumsumAux acc (x :: xs)).get ⟨i + 1, h⟩
        = (cumsumAux (acc + x) xs).get ⟨i, h'⟩ := rfl
      _ = (acc + x) + (xs.take (i + 1)).sum := cumsumAux_get xs (acc + x) i h'
      _ = acc + ((x :: xs).take (i + 2)).sum := by
          rw [List.take_succ_cons, List.sum_cons]
          ring

theorem getLast?_cons_ne {α : Type} (a : α) (l : List α) (h : l ≠ []) :
    (a :: l).getLast? = l.getLast? := by
  cases l with
  | nil => exact absurd rfl h
  | cons b bs => exact List.getLast?_cons_cons

theorem cumsumAux_getLast : ∀ (l : List ℚ) (acc : ℚ), l ≠ [] →
    (cumsumAux acc l).getLast? = some (acc + l.sum)
  | [], _, h => absurd rfl h
  | [x], acc, _ => by simp [cumsumAux]
  | x :: y :: xs, acc, _ => by
    have hne : cumsumAux (acc + x) (y :: xs) ≠ [] := by
      simp [cumsumAux]
    rw [show cumsumAux acc (x :: y :: xs)
          = (acc + x) :: cumsumAux (acc + x) (y :: xs) from rfl,
        getLast?_cons_ne _ _ hne,
        cumsumAux_getLast (y :: xs) (acc + x) (by simp)]
    congr 1
    simp only [List.sum_cons]
    ring

theorem cumsum_length (l : List ℚ) : (cumsum l).length = l.length :=
  cumsumAux_length l 0

theorem cumsum_get (l : List ℚ) (i : ℕ) (h : i < (cumsum l).length) :
    (cumsum l).get ⟨i, h⟩ = (l.take (i + 1)).sum := by
  rw [show (cumsum l).get ⟨i, h⟩ = (cumsumAux 0 l).get ⟨i, h⟩ from rfl,
    cumsumAux_get l 0 i h, zero_add]

theorem cumsum_getLast (l : List ℚ) (h : l ≠ []) :
    (cumsum l).getLast? = some l.sum := by
  rw [show cumsum l = cumsumAux 0 l from rfl, cumsumAux_getLast l 0 h, zero_add]

/-! ## Bucket-date helper lemmas -/

theorem bucketDates_sorted_le (l : List Bet) : (bucketDates l).Sorted (· ≤ ·) :=
  List.sorted_insertionSort _ _

theorem bucketDates_nodup (l : List Bet) : (bucketDates l).Nodup :=
  (List.perm_insertionSort _ _).nodup_iff.mpr (List.nodup_dedup _)

theorem bucketDates_sorted_lt (l : List Bet) : (bucketDates l).Sorted (· < ·) :=
  ((bucketDates_sorted_le l).and (bucketDates_nodup l)).imp
    (fun h => lt_of_le_of_ne h.1 h.2)

theorem mem_bucketDates {l : List Bet} {d : ℤ} :
    d ∈ bucketDates l ↔ d ∈ l.map Bet.date := by
  rw [bucketDates, (List.perm_insertionSort _ _).mem_iff, List.mem_dedup]

theorem bucketDates_ne_nil {l : List Bet} (h : l ≠ []) : bucketDates l ≠ [] := by
  obtain ⟨b, hb⟩ := List.exists_mem_of_ne_nil l h
  exact List.ne_nil_of_mem (mem_bucketDates.mpr (List.mem_map_of_mem Bet.date hb))

theorem bucketDates_perm {l l' : List Bet} (hp : l.Perm l') :
    bucketDates l = bucketDates l' :=
  List.eq_of_perm_of_sorted
    (((List.perm_insertionSort _ _).trans ((hp.map _).dedup)).trans
      (List.perm_insertionSort _ _).symm)
    (List.sorted_insertionSort _ _) (List.sorted_insertionSort _ _)

/-! ## Daily aggregation (claims C4, C5, C10) -/

/-- C4: for every non-empty list of bets, `get_daily_metrics` (with the
month-to-date filter disabled, so that the whole list is aggregated) emits one
bucket per distinct date, sorted strictly ascending by date; each bucket's
cumulative value is the prefix sum of the per-bucket profits in that order,
and the last bucket's cumulative value is the sum of all bucket profits. -/
theorem daily_buckets_sorted_prefix_sums (bets : List Bet) (hne : bets ≠ []) :
    (get_daily_metrics bets false 0).dates.Sorted (· < ·) ∧
    (∀ d : ℤ, d ∈ (get_daily_metrics bets false 0).dates ↔ d ∈ bets.map Bet.date) ∧
    (get_daily_metrics bets false 0).profits.length
      = (get_daily_metrics bets false 0).dates.length ∧
    (∀ i (hi : i < (get_daily_metrics bets false 0).cumulative.length),
      (get_daily_metrics bets false 0).cumulative.get ⟨i, hi⟩
        = ((get_daily_metrics bets false 0).profits.take (i + 1)).sum) ∧
    (get_daily_metrics bets false 0).cumulative.getLast?
      = some ((get_daily_metrics bets false 0).profits.sum) := by
  have hmf : mtdFilter false 0 bets = bets := rfl
  rw [get_daily_metrics, if_neg hne, hmf]
  refine ⟨bucketDates_sorted_lt bets, fun d => mem_bucketDates,
    List.length_map _ _, fun i hi => cumsum_get _ i hi, ?_⟩
  exact cumsum_getLast _ (by
    rw [ne_eq, List.map_eq_nil_iff]
    exact bucketDates_ne_nil hne)

/-- Witness for C4 on a two-date ledger: the cumulative column ends at the
total of the per-bucket profits. -/
theorem daily_buckets_sorted_prefix_sums_witness :
    ([(⟨5, 10, 150, BetResult.win, 25, 15, BetStatus.closed⟩ : Bet),
      ⟨3, 20, 150, BetResult.loss, 0, -20, BetStatus.closed⟩] ≠ []) ∧
    (get_daily_metrics
        [⟨5, 10, 150, BetResult.win, 25, 15, BetStatus.closed⟩,
         ⟨3, 20, 150, BetResult.loss, 0, -20, BetStatus.closed⟩] false 0).cumulative.getLast?
      = some ((get_daily_metrics
        [⟨5, 10, 150, BetResult.win, 25, 15, BetStatus.closed⟩,
         ⟨3, 20, 150, BetResult.loss, 0, -20, BetStatus.closed⟩] false 0).profits.sum) :=
  ⟨by decide,
    (daily_buckets_sorted_prefix_sums _ (by decide)).2.2.2.2⟩

/-- C5: daily aggregation is order-independent — aggregating any permutation
of the bet list yields the identical frame (same dates, per-bucket profits,
amounts and cumulative values), in either aggregation mode. -/
theorem daily_metrics_perm_invariant (mtd : Bool) (ms : ℤ)
    (l l' : List Bet) (hp : l.Perm l') :
    get_daily_metrics l mtd ms = get_daily_metrics l' mtd ms := by
  by_cases hl : l = []
  · subst hl
    rw [hp.symm.eq_nil]
  · have hl' : l' ≠ [] := fun h => hl (by rw [h] at hp; exact hp.eq_nil)
    have hdf : (mtdFilter mtd ms l).Perm (mtdFilter mtd ms l') := by
      cases mtd with
      | false => simpa [mtdFilter] using hp
      | true => simpa [mtdFilter] using hp.filter _
    have hdates : bucketDates (mtdFilter mtd ms l) = bucketDates (mtdFilter mtd ms l') :=
      bucketDates_perm hdf
    have hprof : dayProfit (mtdFilter mtd ms l) = dayProfit (mtdFilter mtd ms l') :=
      funext fun d => ((hdf.filter _).map _).sum_eq
    have hamt : dayAmount (mtdFilter mtd ms l) = dayAmount (mtdFilter mtd ms l') :=
      funext fun d => ((hdf.filter _).map _).sum_eq
    rw [get_daily_metrics, get_daily_metrics, if_neg hl, if_neg hl',
      hdates, hprof, hamt]

/-- Witness for C5: swapping a two-bet ledger leaves the daily frame
unchanged. -/
theorem daily_metrics_perm_invariant_witness :
    ([(⟨5, 10, 150, BetResult.win, 25, 15, BetStatus.closed⟩ : Bet),
      ⟨3, 20, 150, BetResult.loss, 0, -20, BetStatus.closed⟩].Perm
     [⟨3, 20, 150, BetResult.loss, 0, -20, BetStatus.closed⟩,
      ⟨5, 10, 150, BetResult.win, 25, 15, BetStatus.closed⟩]) ∧
    get_daily_metrics
        [⟨5, 10, 150, BetResult.win, 25, 15, BetStatus.closed⟩,
         ⟨3, 20, 150, BetResult.loss, 0, -20, BetStatus.closed⟩] true 0
      = get_daily_metrics
        [⟨3, 20, 150, BetResult.loss, 0, -20, BetStatus.closed⟩,
         ⟨5, 10, 150, BetResult.win, 25, 15, BetStatus.closed⟩] true 0 :=
  ⟨List.Perm.swap _ _ _,
    daily_metrics_perm_invariant true 0 _ _ (List.Perm.swap _ _ _)⟩

/-! ## The aggregation never reads the stored profit field (claim C10) -/

theorem forall2_map_eq {α β : Type} {R : α → α → Prop} {f g : α → β}
    (hfg : ∀ a b, R a b → f a = g b) :
    ∀ {l l' : List α}, List.Forall₂ R l l' → l.map f = l'.map g := by
  intro l l' h
  induction h with
  | nil => rfl
  | cons hab _ ih => simp only [List.map_cons, hfg _ _ hab, ih]

theorem forall2_filter {α : Type} {R : α → α → Prop} {p q : α → Bool}
    (hpq : ∀ a b, R a b → p a = q b) :
    ∀ {l l' : List α}, List.Forall₂ R l l' → List.Forall₂ R (l.filter p) (l'.filter q) := by
  intro l l' h
  induction h with
  | nil => exact .nil
  | @cons a b as bs hab _ ih =>
    simp only [List.filter_cons]
    rw [← hpq a b hab]
    by_cases hpa : p a
    · simp only [hpa, if_true]
      exact .cons hab ih
    · simp only [hpa, if_false]
      exact ih

theorem eqExceptProfit_computedProfit {a b : Bet} (h : EqExceptProfit a b) :
    computedProfit a = computedProfit b := by
  obtain ⟨-, ham, -, hres, hpay, -⟩ := h
  rw [computedProfit, computedProfit, ham, hres, hpay]

/-- C10: the daily aggregation ignores the stored `Profit` field.  For any two
bet lists that agree pointwise on every field except `Profit`, the aggregated
frames are identical (profit is recomputed from `Payout`, `Amount` and
`Result`). -/
theorem daily_metrics_ignore_stored_profit (mtd : Bool) (ms : ℤ)
    (l l' : List Bet) (h : List.Forall₂ EqExceptProfit l l') :
    get_daily_metrics l mtd ms = get_daily_metrics l' mtd ms := by
  by_cases hl : l = []
  · subst hl
    cases h
    rfl
  · have hl' : l' ≠ [] := by
      intro h'
      subst h'
      cases h
      exact hl rfl
    have hdf : List.Forall₂ EqExceptProfit (mtdFilter mtd ms l) (mtdFilter mtd ms l') := by
      cases mtd with
      | false => simpa [mtdFilter] using h
      | true =>
        simp only [mtdFilter, if_true]
        exact forall2_filter (fun a b hab => by rw [hab.1]) h
    have hdates : bucketDates (mtdFilter mtd ms l) = bucketDates (mtdFilter mtd ms l') := by
      rw [bucketDates, bucketDates, forall2_map_eq (fun a b hab => hab.1) hdf]
    have hprof : dayProfit (mtdFilter mtd ms l) = dayProfit (mtdFilter mtd ms l') := by
      funext d
      rw [dayProfit, dayProfit,
        forall2_map_eq (fun a b hab => eqExceptProfit_computedProfit hab)
          (forall2_filter (fun a b hab => by rw [hab.1]) hdf)]
    have hamt : dayAmount (mtdFilter mtd ms l) = dayAmount (mtdFilter mtd ms l') := by
      funext d
      rw [dayAmount, dayAmount,
        forall2_map_eq (fun a b hab => hab.2.1)
          (forall2_filter (fun a b hab => by rw [hab.1]) hdf)]
    rw [get_daily_metrics, get_daily_metrics, if_neg hl, if_neg hl',
      hdates, hprof, hamt]

/-- Witness for C10: corrupting the stored `Profit` field of a bet (here from
`15` to `999`) leaves the aggregated frame unchanged. -/
theorem daily_metrics_ignore_stored_profit_witness :
    List.Forall₂ EqExceptProfit
      [(⟨5, 10, 150, BetResult.win, 25, 15, BetStatus.closed⟩ : Bet)]
      [⟨5, 10, 150, BetResult.win, 25, 999, BetStatus.closed⟩] ∧
    get_daily_metrics
        [⟨5, 10, 150, BetResult.win, 25, 15, BetStatus.closed⟩] true 0
      = get_daily_metrics
        [⟨5, 10, 150, BetResult.win, 25, 999, BetStatus.closed⟩] true 0 :=
  ⟨.cons ⟨rfl, rfl, rfl, rfl, rfl, rfl⟩ .nil,
    daily_metrics_ignore_stored_profit true 0 _ _
      (.cons ⟨rfl, rfl, rfl, rfl, rfl, rfl⟩ .nil)⟩

/-! ## Blended realized/projected series (claim C3) -/

theorem calculate_potential_on_nonzero (amount odds : ℚ) (h : odds ≠ 0) :
    calculate_potential amount odds = some (potentialVal amount odds) := by
  rw [calculate_potential, potentialVal]
  by_cases hp : 0 < odds
  · rw [if_pos hp, if_pos hp]
  · have hd : ¬ |odds| / 100 = 0 := by
      intro hc
      rcases div_eq_zero_iff.mp hc with h' | h'
      · exact h (abs_eq_zero.mp h')
      · norm_num at h'
    rw [if_neg hp, if_neg hp, if_neg hd]

theorem openPotentials_on_nonzero : ∀ (l : List Bet), (∀ b ∈ l, b.odds ≠ 0) →
    openPotentials l = some (l.map (fun b => potentialVal b.amount b.odds))
  | [], _ => rfl
  | b :: bs, h => by
    rw [openPotentials,
      calculate_potential_on_nonzero b.amount b.odds (h b (List.mem_cons_self b bs)),
      openPotentials_on_nonzero bs (fun x hx => h x (List.mem_cons_of_mem b hx))]
    rfl

theorem zip_potential_filter (d : ℤ) (f : Bet → ℚ) :
    ∀ l : List Bet,
      (((l.zip (l.map f)).filter (fun z => z.1.date = d)).map (fun z => z.2))
        = (l.filter (fun b => b.date = d)).map f
  | [] => rfl
  | x :: xs => by
    simp only [List.map_cons, List.zip_cons_cons, List.filter_cons]
    by_cases hx : x.date = d
    · simp [hx, zip_potential_filter d f xs]
    · simp [hx, zip_potential_filter d f xs]

theorem sum_map_add {α : Type} (f g : α → ℚ) :
    ∀ l : List α, (l.map (fun x => f x + g x)).sum = (l.map f).sum + (l.map g).sum
  | [] => by simp
  | x :: xs => by
    simp only [List.map_cons, List.sum_cons, sum_map_add f g xs]
    ring

theorem projectedSeries_eq_of (closed_bets open_bets : List Bet)
    {rows : List OpenDailyRow} {la : ℚ}
    (h1 : openDaily open_bets = some rows)
    (h2 : (closedCumulative closed_bets).getLast? = some la) :
    projectedSeries closed_bets open_bets
      = some (rows.map (fun r => { r with cumulative := r.cumulative + la })) := by
  unfold projectedSeries
  rw [h1, h2]

/-- C3: when both closed and open bets are present (and the open bets carry
well-defined odds), the projected series has one row per distinct open-bet
date, and every projected row's cumulative value equals the final realized
cumulative value (the last entry of the closed cumulative series, i.e. the
total stored profit of the closed bets) plus that date's open-bet bound —
each open bet contributing `potential_win` as its win bound and `-amount` as
its loss bound, summed over the bets of the bucket.  The projected series
thus continues from where the realized series ends. -/
theorem projected_series_continues_from_realized (closed_bets open_bets : List Bet)
    (hc : closed_bets ≠ []) (_ho : open_bets ≠ [])
    (hodds : ∀ b ∈ open_bets, b.odds ≠ 0) :
    ∃ rows la,
      (closedCumulative closed_bets).getLast? = some la ∧
      la = (closed_bets.map Bet.profit).sum ∧
      projectedSeries closed_bets open_bets = some rows ∧
      rows.map OpenDailyRow.date = bucketDates open_bets ∧
      ∀ r ∈ rows, r.cumulative = la +
        ((open_bets.filter (fun b => b.date = r.date)).map
          (fun b => potentialVal b.amount b.odds + -b.amount)).sum := by
  have hlast : (closedCumulative closed_bets).getLast?
      = some ((closed_bets.map Bet.profit).sum) := by
    rw [closedCumulative]
    exact cumsum_getLast _ (by rw [ne_eq, List.map_eq_nil_iff]; exact hc)
  have hod : openDaily open_bets
      = some ((bucketDates open_bets).map (fun d =>
          (⟨d,
            (((open_bets.zip (open_bets.map (fun b => potentialVal b.amount b.odds))).filter
              (fun z => z.1.date = d)).map (fun z => z.2)).sum,
            ((open_bets.filter (fun b => b.date = d)).map (fun b => -b.amount)).sum,
            (((open_bets.zip (open_bets.map (fun b => potentialVal b.amount b.odds))).filter
              (fun z => z.1.date = d)).map (fun z => z.2)).sum +
            ((open_bets.filter (fun b => b.date = d)).map
              (fun b => -b.amount)).sum⟩ : OpenDailyRow))) := by
    rw [openDaily, openPotentials_on_nonzero open_bets hodds, Option.map_some']
  refine ⟨_, _, hlast, rfl, projectedSeries_eq_of closed_bets open_bets hod hlast,
    ?_, ?_⟩
  · simp only [List.map_map]
    exact List.map_id _
  · intro r hr
    simp only [List.map_map, List.mem_map, Function.comp] at hr
    obtain ⟨d, hd, rfl⟩ := hr
    simp only [zip_potential_filter]
    rw [sum_map_add (fun b : Bet => potentialVal b.amount b.odds)
      (fun b : Bet => -b.amount) (open_bets.filter (fun b => b.date = d))]
    ring

/-- Witness for C3: one closed winning bet (stored profit `15`, date `2`) and
one open bet at odds `-110` on date `7`. -/
theorem projected_series_continues_from_realized_witness :
    ([(⟨2, 10, 150, BetResult.win, 25, 15, BetStatus.closed⟩ : Bet)] ≠ []) ∧
    ([(⟨7, 20, -110, BetResult.pending, 0, 0, BetStatus.opened⟩ : Bet)] ≠ []) ∧
    (∀ b ∈ [(⟨7, 20, -110, BetResult.pending, 0, 0, BetStatus.opened⟩ : Bet)],
      b.odds ≠ 0) ∧
    (∃ rows la,
      (closedCumulative
        [(⟨2, 10, 150, BetResult.win, 25, 15, BetStatus.closed⟩ : Bet)]).getLast?
          = some la ∧
      la = ([(⟨2, 10, 150, BetResult.win, 25, 15, BetStatus.closed⟩ : Bet)].map
          Bet.profit).sum ∧
      projectedSeries
          [(⟨2, 10, 150, BetResult.win, 25, 15, BetStatus.closed⟩ : Bet)]
          [(⟨7, 20, -110, BetResult.pending, 0, 0, BetStatus.opened⟩ : Bet)]
        = some rows ∧
      rows.map OpenDailyRow.date = bucketDates
          [(⟨7, 20, -110, BetResult.pending, 0, 0, BetStatus.opened⟩ : Bet)] ∧
      ∀ r ∈ rows, r.cumulative = la +
        (([(⟨7, 20, -110, BetResult.pending, 0, 0, BetStatus.opened⟩ : Bet)].filter
          (fun b => b.date = r.date)).map
            (fun b => potentialVal b.amount b.odds + -b.amount)).sum) :=
  ⟨by decide, by decide, by decide,
    projected_series_continues_from_realized _ _ (by decide) (by decide) (by decide)⟩

/-! ## CSV import (claims C6, C7) -/

theorem processRows_fails_of_bad_date : ∀ (rows : List CsvRow),
    (∃ r ∈ rows, r.outcome ≠ none ∧ r.date = none) → processRows rows = none
  | [], h => by simp at h
  | r :: rs, h => by
    obtain ⟨r', hr', hout, hdate⟩ := h
    rcases List.mem_cons.mp hr' with heq | hmem
    · subst heq
      rw [processRows]
      cases ho : r'.outcome with
      | none => exact absurd ho hout
      | some oc => rw [hdate]
    · rw [processRows]
      cases ho : r.outcome with
      | none => exact processRows_fails_of_bad_date rs ⟨r', hmem, hout, hdate⟩
      | some oc =>
        cases hd : r.date with
        | none => rfl
        | some d =>
          rw [processRows_fails_of_bad_date rs ⟨r', hmem, hout, hdate⟩]
          rfl

/-- C6 (counterexample): a batch holding one fully parseable winning row
(date parsed as day `1`) and one row whose date failed to parse (outcome
present, so it is not skipped).  The claim predicts the good row is still
imported; instead the whole batch fails through the `except` handler and
`process_csv_upload` returns no bets at all — even though the good row on
its own imports fine. -/
theorem csv_bad_date_aborts_batch_counterexample :
    processRows [⟨some 1, 10, -110, some "win", 25⟩] ≠ none ∧
    process_csv_upload required_columns
        [⟨some 1, 10, -110, some "win", 25⟩, ⟨none, 20, 120, some "loss", 0⟩]
      = ⟨[], some ImportError.processing⟩ := by
  constructor
  · rw [processRows]
    simp [processRows]
  · rw [process_csv_upload, if_pos (fun c hc => hc),
      processRows_fails_of_bad_date _
        ⟨⟨none, 20, 120, some "loss", 0⟩, by simp, by simp, rfl⟩]

/-- C6 (amended): the importer has no per-row recovery for date-parse
failures.  If any row whose outcome is present carries an unparseable date,
the whole upload aborts: `process_csv_upload` imports no bets and reports an
error (the missing-column error or the generic processing error), regardless
of the other rows.  Only rows with an empty outcome are skipped
individually. -/
theorem csv_bad_date_aborts_batch (cols : List String) (rows : List CsvRow)
    (h : ∃ r ∈ rows, r.outcome ≠ none ∧ r.date = none) :
    (process_csv_upload cols rows).bets = [] ∧
    (process_csv_upload cols rows).error ≠ none := by
  have hpr := processRows_fails_of_bad_date rows h
  rw [process_csv_upload]
  by_cases hall : ∀ c ∈ required_columns, c ∈ cols
  · rw [if_pos hall, hpr]
    exact ⟨rfl, by simp⟩
  · rw [if_neg hall]
    exact ⟨rfl, by simp⟩

/-- Witness for the amended C6: the two-row batch of the counterexample. -/
theorem csv_bad_date_aborts_batch_witness :
    (∃ r ∈ [(⟨some 1, 10, -110, some "win", 25⟩ : CsvRow),
            ⟨none, 20, 120, some "loss", 0⟩],
      r.outcome ≠ none ∧ r.date = none) ∧
    (process_csv_upload required_columns
        [⟨some 1, 10, -110, some "win", 25⟩, ⟨none, 20, 120, some "loss", 0⟩]).bets
      = [] ∧
    (process_csv_upload required_columns
        [⟨some 1, 10, -110, some "win", 25⟩, ⟨none, 20, 120, some "loss", 0⟩]).error
      ≠ none :=
  ⟨⟨⟨none, 20, 120, some "loss", 0⟩, by simp, by simp, rfl⟩,
    csv_bad_date_aborts_batch required_columns _
      ⟨⟨none, 20, 120, some "loss", 0⟩, by simp, by simp, rfl⟩⟩

/-- C7: a batch missing at least one required column of the settlement-export
schema is rejected as a whole: the missing-columns error is reported and not a
single bet of the batch is imported. -/
theorem missing_column_rejects_batch (cols : List String) (rows : List CsvRow)
    (h : ∃ c ∈ required_columns, c ∉ cols) :
    process_csv_upload cols rows = ⟨[], some ImportError.missingColumns⟩ := by
  obtain ⟨c, hc, hnc⟩ := h
  rw [process_csv_upload, if_neg (fun hall => hnc (hall c hc))]

/-- Witness for C7: a header without `outcome_amount` rejects even a batch of
well-formed rows. -/
theorem missing_column_rejects_batch_witness :
    (∃ c ∈ required_columns, c ∉ ["date", "amount_usd", "price", "outcome"]) ∧
    process_csv_upload ["date", "amount_usd", "price", "outcome"]
        [⟨some 1, 10, -110, some "win", 25⟩]
      = ⟨[], some ImportError.missingColumns⟩ :=
  ⟨⟨"outcome_amount", by simp [required_columns], by simp⟩,
    missing_column_rejects_batch _ _
      ⟨"outcome_amount", by simp [required_columns], by simp⟩⟩

/-! ## Summary metrics (claim C8) -/

/-- C8 (counterexample): a ledger with a single closed bet dated before the
month start (stored profit `5`).  `total_returns` is `0`, not the sum `5` of
profit over all closed bets: the metric is month-to-date, not
date-independent. -/
theorem total_returns_ignores_old_closed_bets :
    total_returns [⟨0, 10, 150, BetResult.win, 25, 5, BetStatus.closed⟩] 10 = 0 ∧
    ((closedBets [⟨0, 10, 150, BetResult.win, 25, 5, BetStatus.closed⟩]).map
        Bet.profit).sum = 5 ∧
    total_returns [⟨0, 10, 150, BetResult.win, 25, 5, BetStatus.closed⟩] 10
      ≠ ((closedBets [⟨0, 10, 150, BetResult.win, 25, 5, BetStatus.closed⟩]).map
          Bet.profit).sum := by
  refine ⟨?_, ?_, ?_⟩
  · simp [total_returns, mtdClosed, closedBets]
  · simp [closedBets]
  · simp [total_returns, mtdClosed, closedBets]

/-- C8 (amended): `total_returns` is the sum of the stored `Profit` field over
the month-to-date closed bets; it agrees with the sum over all closed bets
exactly on ledgers whose closed bets all fall on or after the month start. -/
theorem total_returns_sums_mtd_closed (history : List Bet) (ms : ℤ)
    (h : ∀ b ∈ closedBets history, ms ≤ b.date) :
    total_returns history ms = ((closedBets history).map Bet.profit).sum := by
  rw [total_returns, mtdClosed,
    List.filter_eq_self.mpr (fun b hb => decide_eq_true (h b hb))]

/-- Witness for the amended C8: a single closed bet inside the current
month. -/
theorem total_returns_sums_mtd_closed_witness :
    (∀ b ∈ closedBets [(⟨5, 10, 150, BetResult.win, 25, 15, BetStatus.closed⟩ : Bet)],
      (0 : ℤ) ≤ b.date) ∧
    total_returns [(⟨5, 10, 150, BetResult.win, 25, 15, BetStatus.closed⟩ : Bet)] 0
      = ((closedBets
          [(⟨5, 10, 150, BetResult.win, 25, 15, BetStatus.closed⟩ : Bet)]).map
            Bet.profit).sum :=
  ⟨by decide, total_returns_sums_mtd_closed _ 0 (by decide)⟩

end BetTracker
